import Mathlib

/-!
Verification development for the `botowraps` S3 uploader
(`botowraps/s3.py`, class `S3Uploader`).

The Python code is shallowly embedded: every external effect (local file
reads, the boto S3 calls) is resolved through explicit environment records,
and each fallible call site is modelled with `Except String` where an
`.error` value stands for a raised Python exception.  Machine state that the
code threads through loops (`sbyte`, `chunk_num`, `attempts`, `success`) is
passed explicitly; the `while` loops are embedded with a fuel argument large
enough that, under the preconditions the code itself establishes, the fuel
is never exhausted before the loop guard fails.
-/

namespace Botowraps

/-- The tuple yielded by `S3Uploader._file_chunker`:
`(mp_id, bucketname, filename, attempt_limit, chunk_num, sbyte, nbytes)`. -/
structure ChunkArgs where
  mp_id : Nat
  bucketname : String
  filename : String
  attempt_limit : Nat
  chunk_num : Nat
  sbyte : Nat
  nbytes : Nat
deriving Repr, DecidableEq

/-- Loop body of `_file_chunker`: `while sbyte < fsize:` yield the next chunk
of `min(chunksize, fsize - sbyte)` bytes, then advance `sbyte` and
`chunk_num`.  `fuel` bounds the number of iterations; `fileChunker` supplies
`fsize` as fuel, which suffices whenever `chunksize > 0` because every
iteration consumes at least one byte. -/
def fileChunkerGo (mp_id : Nat) (bucketname filename : String)
    (attempt_limit chunksize fsize : Nat) : Nat → Nat → Nat → List ChunkArgs
  | 0, _, _ => []
  | fuel + 1, sbyte, chunk_num =>
    if sbyte < fsize then
      let nbytes := min chunksize (fsize - sbyte)
      ⟨mp_id, bucketname, filename, attempt_limit, chunk_num, sbyte, nbytes⟩ ::
        fileChunkerGo mp_id bucketname filename attempt_limit chunksize fsize
          fuel (sbyte + nbytes) (chunk_num + 1)
    else []

/-- Function `S3Uploader._file_chunker(mp_id, filename)`: the full list of yielded
chunk tuples, starting at byte 0 with ordinal 1. -/
def fileChunker (mp_id : Nat) (bucketname filename : String)
    (attempt_limit chunksize fsize : Nat) : List ChunkArgs :=
  fileChunkerGo mp_id bucketname filename attempt_limit chunksize fsize fsize 0 1

/-- A chunk list is contiguous from starting byte `s`: each chunk starts
exactly where the previous one ended (no gap, no overlap). -/
def contiguousFrom : Nat → List ChunkArgs → Bool
  | _, [] => true
  | s, c :: rest => decide (c.sbyte = s) && contiguousFrom (c.sbyte + c.nbytes) rest

lemma fileChunkerGo_done (mp_id : Nat) (bucketname filename : String)
    (attempt_limit chunksize fsize : Nat) (fuel sbyte chunk_num : Nat)
    (h : fsize ≤ sbyte) :
    fileChunkerGo mp_id bucketname filename attempt_limit chunksize fsize
      fuel sbyte chunk_num = [] := by
  cases fuel with
  | zero => rfl
  | succ fuel => simp [fileChunkerGo, Nat.not_lt.mpr h]

lemma fileChunkerGo_spec (mp_id : Nat) (bucketname filename : String)
    (attempt_limit chunksize fsize : Nat) (hcs : 0 < chunksize) :
    ∀ fuel sbyte chunk_num, fsize - sbyte ≤ fuel →
      contiguousFrom sbyte
          (fileChunkerGo mp_id bucketname filename attempt_limit chunksize fsize
            fuel sbyte chunk_num) = true ∧
      ((fileChunkerGo mp_id bucketname filename attempt_limit chunksize fsize
            fuel sbyte chunk_num).map (fun c => c.nbytes)).sum = fsize - sbyte ∧
      (fileChunkerGo mp_id bucketname filename attempt_limit chunksize fsize
            fuel sbyte chunk_num).map (fun c => c.chunk_num) =
        List.range' chunk_num
          (fileChunkerGo mp_id bucketname filename attempt_limit chunksize fsize
            fuel sbyte chunk_num).length ∧
      (∀ c ∈ fileChunkerGo mp_id bucketname filename attempt_limit chunksize fsize
            fuel sbyte chunk_num,
        c.nbytes = min chunksize (fsize - c.sbyte) ∧ c.sbyte < fsize) := by
  intro fuel
  induction fuel with
  | zero =>
    intro sbyte chunk_num hle
    have h : fsize ≤ sbyte := by omega
    simp [fileChunkerGo_done mp_id bucketname filename attempt_limit chunksize fsize 0 sbyte
      chunk_num h, contiguousFrom]
    omega
  | succ fuel ih =>
    intro sbyte chunk_num hle
    by_cases h : sbyte < fsize
    · have hnb : 0 < min chunksize (fsize - sbyte) := by
        have : 0 < fsize - sbyte := by omega
        exact Nat.lt_min.mpr ⟨hcs, this⟩
      have hnble : min chunksize (fsize - sbyte) ≤ fsize - sbyte := Nat.min_le_right _ _
      have hrec := ih (sbyte + min chunksize (fsize - sbyte)) (chunk_num + 1) (by omega)
      obtain ⟨hcont, hsum, hords, hmem⟩ := hrec
      refine ⟨?_, ?_, ?_, ?_⟩
      · simp [fileChunkerGo, h, contiguousFrom, hcont]
      · simp only [fileChunkerGo, if_pos h, List.map_cons, List.sum_cons, hsum]
        omega
      · simp only [fileChunkerGo, if_pos h, List.map_cons, List.length_cons, hords,
          List.range'_succ]
      · intro c hc
        simp only [fileChunkerGo, if_pos h, List.mem_cons] at hc
        cases hc with
        | inl hceq => subst hceq; exact ⟨rfl, h⟩
        | inr hcm => exact hmem c hcm
    · have hfs : fsize ≤ sbyte := by omega
      simp [fileChunkerGo_done mp_id bucketname filename attempt_limit chunksize fsize
        (fuel + 1) sbyte chunk_num hfs, contiguousFrom]
      omega

/-- Claim C4: with a positive chunk size the planner's chunks exactly tile
`[0, fsize)`: they are contiguous from byte 0 (no gap, no overlap), their
lengths sum to the file size, each length is `min(chunksize, bytes
remaining)`, and the ordinals are exactly `1..N`, ascending, with no
duplicates or gaps. -/
theorem file_chunker_tiles (mp_id : Nat) (bucketname filename : String)
    (attempt_limit chunksize fsize : Nat) (hcs : 0 < chunksize) :
    contiguousFrom 0
        (fileChunker mp_id bucketname filename attempt_limit chunksize fsize) = true ∧
    ((fileChunker mp_id bucketname filename attempt_limit chunksize fsize).map
        (fun c => c.nbytes)).sum = fsize ∧
    (fileChunker mp_id bucketname filename attempt_limit chunksize fsize).map
        (fun c => c.chunk_num) =
      List.range' 1
        (fileChunker mp_id bucketname filename attempt_limit chunksize fsize).length ∧
    (∀ c ∈ fileChunker mp_id bucketname filename attempt_limit chunksize fsize,
      c.nbytes = min chunksize (fsize - c.sbyte) ∧ c.sbyte < fsize) := by
  have h := fileChunkerGo_spec mp_id bucketname filename attempt_limit chunksize fsize hcs
    fsize 0 1 (by omega)
  simpa [fileChunker] using h

/-- Witness for C4 at chunk size 5, file size 12: chunks (1,0,5), (2,5,5),
(3,10,2). -/
theorem file_chunker_tiles_witness :
    0 < 5 ∧
    (contiguousFrom 0 (fileChunker 9 "bucket" "file" 3 5 12) = true ∧
      ((fileChunker 9 "bucket" "file" 3 5 12).map (fun c => c.nbytes)).sum = 12 ∧
      (fileChunker 9 "bucket" "file" 3 5 12).map (fun c => c.chunk_num) =
        List.range' 1 (fileChunker 9 "bucket" "file" 3 5 12).length ∧
      (∀ c ∈ fileChunker 9 "bucket" "file" 3 5 12,
        c.nbytes = min 5 (12 - c.sbyte) ∧ c.sbyte < 12)) :=
  ⟨by decide, file_chunker_tiles 9 "bucket" "file" 3 5 12 (by decide)⟩

lemma fileChunkerGo_fuel_stable (mp_id : Nat) (bucketname filename : String)
    (attempt_limit chunksize fsize : Nat) (hcs : 0 < chunksize) :
    ∀ fuel₁ fuel₂ sbyte chunk_num, fsize - sbyte ≤ fuel₁ → fsize - sbyte ≤ fuel₂ →
      fileChunkerGo mp_id bucketname filename attempt_limit chunksize fsize
          fuel₁ sbyte chunk_num =
        fileChunkerGo mp_id bucketname filename attempt_limit chunksize fsize
          fuel₂ sbyte chunk_num := by
  intro fuel₁
  induction fuel₁ with
  | zero =>
    intro fuel₂ sbyte chunk_num h₁ h₂
    have h : fsize ≤ sbyte := by omega
    rw [fileChunkerGo_done mp_id bucketname filename attempt_limit chunksize fsize 0 sbyte
        chunk_num h,
      fileChunkerGo_done mp_id bucketname filename attempt_limit chunksize fsize fuel₂ sbyte
        chunk_num h]
  | succ fuel₁ ih =>
    intro fuel₂ sbyte chunk_num h₁ h₂
    by_cases h : sbyte < fsize
    · have hpos : 0 < fsize - sbyte := by omega
      cases fuel₂ with
      | zero => omega
      | succ fuel₂ =>
        have hnb : 0 < min chunksize (fsize - sbyte) := Nat.lt_min.mpr ⟨hcs, hpos⟩
        simp only [fileChunkerGo, if_pos h]
        rw [ih fuel₂ (sbyte + min chunksize (fsize - sbyte)) (chunk_num + 1) (by omega)
          (by omega)]
    · have hfs : fsize ≤ sbyte := by omega
      rw [fileChunkerGo_done mp_id bucketname filename attempt_limit chunksize fsize
          (fuel₁ + 1) sbyte chunk_num hfs,
        fileChunkerGo_done mp_id bucketname filename attempt_limit chunksize fsize fuel₂ sbyte
          chunk_num hfs]

lemma length_le_sum_nbytes :
    ∀ l : List ChunkArgs, (∀ c ∈ l, 1 ≤ c.nbytes) →
      l.length ≤ (l.map (fun c => c.nbytes)).sum := by
  intro l
  induction l with
  | nil => intro _; simp
  | cons c rest ih =>
    intro h
    have hc := h c (by simp)
    have hr := ih (fun d hd => h d (by simp [hd]))
    simp only [List.length_cons, List.map_cons, List.sum_cons]
    omega

/-- Claim C9: with a positive chunk size the planner's `while` loop terminates
for every file size: the result is insensitive to any sufficiently large
iteration bound (the loop guard is reached and fails), a zero-length file
yields zero chunks, the remaining byte count strictly decreases on every
iteration, and the number of chunks is bounded by the file size. -/
theorem file_chunker_terminates (mp_id : Nat) (bucketname filename : String)
    (attempt_limit chunksize fsize : Nat) (hcs : 0 < chunksize) :
    (∀ fuel, fsize ≤ fuel →
      fileChunkerGo mp_id bucketname filename attempt_limit chunksize fsize fuel 0 1 =
        fileChunker mp_id bucketname filename attempt_limit chunksize fsize) ∧
    fileChunker mp_id bucketname filename attempt_limit chunksize 0 = [] ∧
    (∀ sbyte, sbyte < fsize →
      fsize - (sbyte + min chunksize (fsize - sbyte)) < fsize - sbyte) ∧
    (fileChunker mp_id bucketname filename attempt_limit chunksize fsize).length ≤ fsize := by
  refine ⟨?_, rfl, ?_, ?_⟩
  · intro fuel hfuel
    exact fileChunkerGo_fuel_stable mp_id bucketname filename attempt_limit chunksize fsize
      hcs fuel fsize 0 1 (by omega) (by omega)
  · intro sbyte h
    have : 0 < min chunksize (fsize - sbyte) := Nat.lt_min.mpr ⟨hcs, by omega⟩
    omega
  · have hspec := file_chunker_tiles mp_id bucketname filename attempt_limit chunksize fsize hcs
    obtain ⟨-, hsum, -, hmem⟩ := hspec
    have hone : ∀ c ∈ fileChunker mp_id bucketname filename attempt_limit chunksize fsize,
        1 ≤ c.nbytes := by
      intro c hc
      obtain ⟨hnb, hlt⟩ := hmem c hc
      have : 0 < min chunksize (fsize - c.sbyte) := Nat.lt_min.mpr ⟨hcs, by omega⟩
      omega
    have := length_le_sum_nbytes
      (fileChunker mp_id bucketname filename attempt_limit chunksize fsize) hone
    omega

/-- Witness for C9 at chunk size 5, file size 12. -/
theorem file_chunker_terminates_witness :
    0 < 5 ∧
    ((∀ fuel, 12 ≤ fuel →
        fileChunkerGo 9 "bucket" "file" 3 5 12 fuel 0 1 =
          fileChunker 9 "bucket" "file" 3 5 12) ∧
      fileChunker 9 "bucket" "file" 3 5 0 = [] ∧
      (∀ sbyte, sbyte < 12 → 12 - (sbyte + min 5 (12 - sbyte)) < 12 - sbyte) ∧
      (fileChunker 9 "bucket" "file" 3 5 12).length ≤ 12) :=
  ⟨by decide, file_chunker_terminates 9 "bucket" "file" 3 5 12 (by decide)⟩

/-- One entry of `bucket.get_all_multipart_uploads()`: its multipart id and
whether `mp.upload_part_from_file(...)` on it would succeed for this attempt. -/
structure SessionEntry where
  id : Nat
  uploadOk : Bool
deriving Repr, DecidableEq

/-- Environment of one iteration of the retry loop in `_upload_part`:
whether the local file open/seek/read succeeds, whether `_get_bucket`
succeeds, and what `get_all_multipart_uploads` returns (`none` models the
listing call raising). -/
structure AttemptEnv where
  readOk : Bool
  bucketOk : Bool
  sessions : Option (List SessionEntry)
deriving Repr, DecidableEq

/-- The `for mp in bucket.get_all_multipart_uploads(): if mp.id == mp_id:
mp.upload_part_from_file(...)` loop.  Returns the number of parts submitted
(`.ok`), or the exception raised by the first failing submission
(`.error`). -/
def runMatching (mp_id : Nat) : List SessionEntry → Except String Nat
  | [] => .ok 0
  | s :: rest =>
    if s.id = mp_id then
      if s.uploadOk then (runMatching mp_id rest).map (fun n => n + 1)
      else .error "upload_part_from_file"
    else runMatching mp_id rest

/-- The `try:` block of one attempt in `_upload_part`: read the chunk bytes
from the file, get the bucket, list the in-progress multipart uploads, and
submit the chunk to every listed upload whose id matches `mp_id`.  `.ok n`
means the attempt succeeded with `n` part submissions; `.error` is a raised
exception. -/
def attemptRun (mp_id : Nat) (e : AttemptEnv) : Except String Nat :=
  if e.readOk then
    if e.bucketOk then
      match e.sessions with
      | some l => runMatching mp_id l
      | none => .error "get_all_multipart_uploads"
    else .error "get_bucket"
  else .error "read"

/-- The `while attempts < attempt_limit and not success:` loop of
`_upload_part`.  `fuel` is the number of attempts still allowed
(`attempt_limit - attempts`); `attempts` is the count so far.  Each
iteration increments `attempts` and runs one attempt; exceptions from the
attempt are caught by the `except` clause and the loop retries.  Returns
`(attempts, success, parts submitted by the successful attempt)`; the
`Except` layer carries any exception the function itself would raise. -/
def uploadPartGo (mp_id : Nat) (envs : Nat → AttemptEnv) :
    Nat → Nat → Except String (Nat × Bool × Nat)
  | 0, attempts => .ok (attempts, false, 0)
  | fuel + 1, attempts =>
    match attemptRun mp_id (envs (attempts + 1)) with
    | .ok n => .ok (attempts + 1, true, n)
    | .error _ => uploadPartGo mp_id envs fuel (attempts + 1)

/-- Function `S3Uploader._upload_part(args)`: runs the retry loop starting from
`attempts = 0`, `success = False`, and returns the tuple
`(chunk_num, success)`.  `envs k` is the environment seen by attempt `k`
(1-based). -/
def uploadPart (mp_id attempt_limit chunk_num : Nat) (envs : Nat → AttemptEnv) :
    Except String (Nat × Bool) :=
  (uploadPartGo mp_id envs attempt_limit 0).map (fun r => (chunk_num, r.2.1))

lemma uploadPartGo_isOk (mp_id : Nat) (envs : Nat → AttemptEnv) :
    ∀ fuel attempts, ∃ r, uploadPartGo mp_id envs fuel attempts = .ok r := by
  intro fuel
  induction fuel with
  | zero => intro attempts; exact ⟨(attempts, false, 0), rfl⟩
  | succ fuel ih =>
    intro attempts
    cases h : attemptRun mp_id (envs (attempts + 1)) with
    | ok n => exact ⟨(attempts + 1, true, n), by simp [uploadPartGo, h]⟩
    | error e =>
      obtain ⟨r, hr⟩ := ih (attempts + 1)
      exact ⟨r, by simp [uploadPartGo, h, hr]⟩

lemma uploadPart_isOk (mp_id attempt_limit chunk_num : Nat) (envs : Nat → AttemptEnv) :
    ∃ s, uploadPart mp_id attempt_limit chunk_num envs = .ok (chunk_num, s) := by
  obtain ⟨r, hr⟩ := uploadPartGo_isOk mp_id envs attempt_limit 0
  exact ⟨r.2.1, by simp [uploadPart, hr, Except.map]⟩

lemma uploadPartGo_attempts_le (mp_id : Nat) (envs : Nat → AttemptEnv) :
    ∀ fuel attempts r, uploadPartGo mp_id envs fuel attempts = .ok r →
      r.1 ≤ attempts + fuel := by
  intro fuel
  induction fuel with
  | zero =>
    intro attempts r hr
    simp only [uploadPartGo] at hr
    cases hr
    simp
  | succ fuel ih =>
    intro attempts r hr
    simp only [uploadPartGo] at hr
    cases h : attemptRun mp_id (envs (attempts + 1)) with
    | ok n => rw [h] at hr; cases hr; simp
    | error e =>
      rw [h] at hr
      have := ih (attempts + 1) r hr
      omega

lemma uploadPartGo_first_success (mp_id : Nat) (envs : Nat → AttemptEnv) :
    ∀ fuel attempts k, attempts < k → k ≤ attempts + fuel →
      (attemptRun mp_id (envs k)).isOk = true →
      (∀ j, attempts < j → j < k → (attemptRun mp_id (envs j)).isOk = false) →
      ∃ n, uploadPartGo mp_id envs fuel attempts = .ok (k, true, n) := by
  intro fuel
  induction fuel with
  | zero => intro attempts k h₁ h₂ _ _; omega
  | succ fuel ih =>
    intro attempts k h₁ h₂ hk hbefore
    by_cases heq : k = attempts + 1
    · subst heq
      cases h : attemptRun mp_id (envs (attempts + 1)) with
      | ok n => exact ⟨n, by simp [uploadPartGo, h]⟩
      | error e => rw [h] at hk; simp [Except.isOk, Except.toBool] at hk
    · have hfail : (attemptRun mp_id (envs (attempts + 1))).isOk = false :=
        hbefore (attempts + 1) (by omega) (by omega)
      cases h : attemptRun mp_id (envs (attempts + 1)) with
      | ok n => rw [h] at hfail; simp [Except.isOk, Except.toBool] at hfail
      | error e =>
        obtain ⟨n, hn⟩ := ih (attempts + 1) k (by omega) (by omega) hk
          (fun j hj₁ hj₂ => hbefore j (by omega) hj₂)
        exact ⟨n, by simp [uploadPartGo, h, hn]⟩

lemma uploadPartGo_all_fail (mp_id : Nat) (envs : Nat → AttemptEnv) :
    ∀ fuel attempts,
      (∀ j, attempts < j → j ≤ attempts + fuel → (attemptRun mp_id (envs j)).isOk = false) →
      uploadPartGo mp_id envs fuel attempts = .ok (attempts + fuel, false, 0) := by
  intro fuel
  induction fuel with
  | zero => intro attempts _; simp [uploadPartGo]
  | succ fuel ih =>
    intro attempts hall
    have hfail := hall (attempts + 1) (by omega) (by omega)
    cases h : attemptRun mp_id (envs (attempts + 1)) with
    | ok n => rw [h] at hfail; simp [Except.isOk, Except.toBool] at hfail
    | error e =>
      have := ih (attempts + 1) (fun j hj₁ hj₂ => hall j (by omega) (by omega))
      simp only [uploadPartGo, h, this]
      congr 2
      omega

/-- Claim C5: the retry loop stops on the first successful attempt `k`
(consuming exactly `k` attempts and reporting success), never makes more
than `attempt_limit` attempts, and if every attempt up to the limit fails it
reports failure having consumed exactly `attempt_limit` attempts. -/
theorem upload_part_retry (mp_id attempt_limit chunk_num : Nat)
    (envs : Nat → AttemptEnv) :
    (∀ k, 1 ≤ k → k ≤ attempt_limit → (attemptRun mp_id (envs k)).isOk = true →
      (∀ j, 1 ≤ j → j < k → (attemptRun mp_id (envs j)).isOk = false) →
      (∃ n, uploadPartGo mp_id envs attempt_limit 0 = .ok (k, true, n)) ∧
        uploadPart mp_id attempt_limit chunk_num envs = .ok (chunk_num, true)) ∧
    (∀ r, uploadPartGo mp_id envs attempt_limit 0 = .ok r → r.1 ≤ attempt_limit) ∧
    ((∀ j, 1 ≤ j → j ≤ attempt_limit → (attemptRun mp_id (envs j)).isOk = false) →
      uploadPartGo mp_id envs attempt_limit 0 = .ok (attempt_limit, false, 0) ∧
        uploadPart mp_id attempt_limit chunk_num envs = .ok (chunk_num, false)) := by
  refine ⟨?_, ?_, ?_⟩
  · intro k hk₁ hk₂ hok hbefore
    obtain ⟨n, hn⟩ := uploadPartGo_first_success mp_id envs attempt_limit 0 k (by omega)
      (by omega) hok (fun j hj₁ hj₂ => hbefore j (by omega) hj₂)
    exact ⟨⟨n, hn⟩, by simp [uploadPart, hn, Except.map]⟩
  · intro r hr
    have := uploadPartGo_attempts_le mp_id envs attempt_limit 0 r hr
    omega
  · intro hall
    have h := uploadPartGo_all_fail mp_id envs attempt_limit 0
      (fun j hj₁ hj₂ => hall j (by omega) (by omega))
    simp only [Nat.zero_add] at h
    exact ⟨h, by simp [uploadPart, h, Except.map]⟩

/-- Attempt environment in which every external call succeeds and the
session list contains exactly the matching upload `mp_id = 7`. -/
def attemptEnvGood : AttemptEnv := ⟨true, true, some [⟨7, true⟩]⟩

/-- Attempt environment whose local file read raises. -/
def attemptEnvBad : AttemptEnv := ⟨false, true, some [⟨7, true⟩]⟩

/-- Attempt environments for a chunk that fails attempts 1 and 2 and
succeeds on attempt 3. -/
def envsThird : Nat → AttemptEnv := fun k => if k = 3 then attemptEnvGood else attemptEnvBad

/-- Attempt environments for a chunk that succeeds immediately. -/
def envsFirst : Nat → AttemptEnv := fun _ => attemptEnvGood

/-- Witness for C5 with attempt limit 3 and first success on attempt 3. -/
theorem upload_part_retry_witness :
    ((∃ n, uploadPartGo 7 envsThird 3 0 = .ok (3, true, n)) ∧
      uploadPart 7 3 1 envsThird = .ok (1, true)) ∧
    uploadPart 7 3 1 (fun _ => attemptEnvBad) = .ok (1, false) := by
  refine ⟨(upload_part_retry 7 3 1 envsThird).1 3 (by decide) (by decide) (by decide) ?_, ?_⟩
  · intro j hj₁ hj₂
    interval_cases j <;> decide
  · exact ((upload_part_retry 7 3 1 (fun _ => attemptEnvBad)).2.2 (by decide)).2

/-- Claim C6: `_upload_part` is exception-free at its boundary: for every
environment — in particular ones where the file read, the bucket fetch, the
session listing or the part submission raises on every attempt — it returns
a `(chunk_num, success)` outcome and never an exception. -/
theorem upload_part_no_throw (mp_id attempt_limit chunk_num : Nat)
    (envs : Nat → AttemptEnv) :
    ∃ s, uploadPart mp_id attempt_limit chunk_num envs = .ok (chunk_num, s) :=
  uploadPart_isOk mp_id attempt_limit chunk_num envs

/-- Claim C8, counterexample: the `ChunkOutcome` returned by `_upload_part` is
the pair `(chunk_num, success)` and does not carry the number of attempts
consumed: a run that succeeds on attempt 1 and a run that fails attempts 1
and 2 and succeeds on attempt 3 consume different numbers of attempts (1
versus 3) yet return identical outcomes, so no component of the outcome can
be the attempts count. -/
theorem chunk_outcome_no_attempts_cex :
    uploadPart 7 3 4 envsFirst = uploadPart 7 3 4 envsThird ∧
    uploadPartGo 7 envsFirst 3 0 = .ok (1, true, 1) ∧
    uploadPartGo 7 envsThird 3 0 = .ok (3, true, 1) := by
  refine ⟨rfl, rfl, rfl⟩

/-- Claim C8, amended: the outcome produced by `_upload_part` carries the
chunk's ordinal and the success flag (the attempts consumed are tracked in a
loop variable and logged, but not returned); with attempt limit 3, a chunk
that fails attempts 1 and 2 and succeeds on attempt 3 consumes exactly 3
attempts inside the loop and yields the outcome `(ordinal, success=true)`. -/
theorem chunk_outcome_fields :
    uploadPartGo 7 envsThird 3 0 = .ok (3, true, 1) ∧
    uploadPart 7 3 4 envsThird = .ok (4, true) := by
  refine ⟨rfl, rfl⟩

lemma runMatching_no_match (mp_id : Nat) :
    ∀ l : List SessionEntry, (∀ s ∈ l, s.id ≠ mp_id) → runMatching mp_id l = .ok 0 := by
  intro l
  induction l with
  | nil => intro _; rfl
  | cons s rest ih =>
    intro hnomatch
    have hs : s.id ≠ mp_id := hnomatch s (by simp)
    simp only [runMatching, if_neg hs]
    exact ih (fun t ht => hnomatch t (by simp [ht]))

/-- Claim C10: in any attempt whose environment lists no in-progress multipart
upload with id equal to `mp_id` (and whose file read and bucket fetch
succeed), the worker submits zero parts yet the attempt succeeds; if this
happens on the first attempt, `_upload_part` returns `success=true` having
submitted no bytes at all. -/
theorem upload_part_ghost_success (mp_id attempt_limit chunk_num : Nat)
    (envs : Nat → AttemptEnv) (l : List SessionEntry)
    (hread : (envs 1).readOk = true) (hbucket : (envs 1).bucketOk = true)
    (hsess : (envs 1).sessions = some l) (hnomatch : ∀ s ∈ l, s.id ≠ mp_id)
    (hlim : 1 ≤ attempt_limit) :
    attemptRun mp_id (envs 1) = .ok 0 ∧
    uploadPartGo mp_id envs attempt_limit 0 = .ok (1, true, 0) ∧
    uploadPart mp_id attempt_limit chunk_num envs = .ok (chunk_num, true) := by
  have hmatch : runMatching mp_id l = .ok 0 := runMatching_no_match mp_id l hnomatch
  have hrun : attemptRun mp_id (envs 1) = .ok 0 := by
    simp [attemptRun, hread, hbucket, hsess, hmatch]
  obtain ⟨fuel, hfuel⟩ : ∃ fuel, attempt_limit = fuel + 1 :=
    ⟨attempt_limit - 1, by omega⟩
  subst hfuel
  have hgo : uploadPartGo mp_id envs (fuel + 1) 0 = .ok (1, true, 0) := by
    simp [uploadPartGo, hrun]
  exact ⟨hrun, hgo, by simp [uploadPart, hgo, Except.map]⟩

/-- Attempt environments in which the session listing succeeds but contains
only an upload with id 5 (not the session's id 7). -/
def envsNoMatch : Nat → AttemptEnv := fun _ => ⟨true, true, some [⟨5, true⟩]⟩

/-- Witness for C10: the session list contains only an upload with a
different id (5, not 7); the attempt submits nothing and succeeds. -/
theorem upload_part_ghost_success_witness :
    attemptRun 7 (envsNoMatch 1) = .ok 0 ∧
    uploadPartGo 7 envsNoMatch 1 0 = .ok (1, true, 0) ∧
    uploadPart 7 1 2 envsNoMatch = .ok (2, true) :=
  upload_part_ghost_success 7 1 2 envsNoMatch [⟨5, true⟩] rfl rfl rfl (by decide) (by decide)

/-- Character scan for `basename`: keeps the (reversed) segment read since
the last `/` and restarts it at each separator. -/
def basenameChars : List Char → List Char → List Char
  | seg, [] => seg.reverse
  | seg, c :: rest => if c = '/' then basenameChars [] rest else basenameChars (c :: seg) rest

/-- Model of `os.path.basename`: the path component after the last separator. -/
def basename (s : String) : String := String.mk (basenameChars [] s.data)

/-- Environment resolving every external call made by `S3Uploader.upload`:
the file's size (`os.stat`), whether `_get_bucket` at the top of `upload`
succeeds, whether the single-shot `set_contents_from_filename` succeeds,
the result of `initiate_multipart_upload` (`none` models a raise, `some`
the new session's id), the per-chunk per-attempt environments seen by
`_upload_part`, whether the pool's `run_upload.get(timeout=...)` returns
(false models a timeout or pool-level error), the result of
`mp.get_all_parts()` (`none` models a raise, `some n` a list of `n` parts),
whether `mp.complete_upload()` succeeds, and whether the `k`-th call
(0-based) to `mp.cancel_upload()` succeeds. -/
structure UploadEnv where
  fsize : Nat
  getBucketOk : Bool
  putOk : Bool
  initiate : Option Nat
  chunkEnvs : Nat → Nat → AttemptEnv
  poolOk : Bool
  getAllParts : Option Nat
  completeOk : Bool
  cancelOk : Nat → Bool

/-- Counts of the remote-store calls `upload` issues: single-shot puts,
`initiate_multipart_upload` calls, `complete_upload` calls and
`cancel_upload` calls (a call is counted when issued, whether or not it
raises). -/
structure Trace where
  puts : Nat
  initiates : Nat
  completes : Nat
  cancels : Nat
deriving Repr, DecidableEq

/-- Result of the `threads == 1` dispatch loop (lines 112-124): the loop ran
to completion collecting `result`, or some part returned `success=False`
(the loop stops after appending that outcome), or a statement inside the
`try` raised. -/
inductive SeqOutcome where
  | allOk (result : List (Nat × Bool))
  | failedPart (result : List (Nat × Bool))
  | raised (e : String)
deriving Repr, DecidableEq

/-- The `threads == 1` loop: call `_upload_part` on each chunk in order,
append its outcome, and stop at the first outcome with `success=False`. -/
def seqRun (cenvs : Nat → Nat → AttemptEnv) : List ChunkArgs → SeqOutcome
  | [] => .allOk []
  | c :: rest =>
    match uploadPart c.mp_id c.attempt_limit c.chunk_num (cenvs c.chunk_num) with
    | .error e => .raised e
    | .ok pr =>
      if pr.2 = false then .failedPart [pr]
      else
        match seqRun cenvs rest with
        | .allOk res => .allOk (pr :: res)
        | .failedPart res => .failedPart (pr :: res)
        | .raised e => .raised e

/-- The `threads > 1` path: `pool.map_async(func=self._upload_part,
iterable=fchunks)` followed by `run_upload.get(...)` — every chunk is
dispatched and the full outcome list is collected; an exception raised by
any worker would surface at `get`. -/
def poolRun (cenvs : Nat → Nat → AttemptEnv) : List ChunkArgs → Except String (List (Nat × Bool))
  | [] => .ok []
  | c :: rest =>
    match uploadPart c.mp_id c.attempt_limit c.chunk_num (cenvs c.chunk_num) with
    | .error e => .error e
    | .ok pr =>
      match poolRun cenvs rest with
      | .error e => .error e
      | .ok res => .ok (pr :: res)

/-- Lines 142-161 of `upload`: scan `result` for a failed chunk (cancel and
return `None` if found), then compare `len(mp.get_all_parts())` with
`len(result)`; on a match issue `complete_upload` (cancelling if it raises),
otherwise issue `cancel_upload`.  Returns the function result together with
the number of `complete_upload` and `cancel_upload` calls issued here. -/
def finalize (env : UploadEnv) (keyname : String) (result : List (Nat × Bool)) :
    Except String (Option String) × Nat × Nat :=
  if result.all (fun r => r.2) = false then
    if env.cancelOk 0 then (.ok none, 0, 1) else (.error "cancel_upload", 0, 1)
  else
    match env.getAllParts with
    | none => (.error "get_all_parts", 0, 0)
    | some parts =>
      if parts = result.length then
        if env.completeOk then (.ok (some keyname), 1, 0)
        else if env.cancelOk 0 then (.ok none, 1, 1)
        else (.error "cancel_upload", 1, 1)
      else
        if env.cancelOk 0 then (.ok none, 0, 1)
        else (.error "cancel_upload", 0, 1)

/-- Method `S3Uploader.upload(filename, keyname)`: resolve the key name, fetch the
bucket, and either single-shot put (size below the 5 MiB multipart floor)
or run the multipart protocol: initiate, dispatch the planned chunks through
the `threads == 1` loop or the worker pool, and finalize.  The result pairs
the function's outcome (`.ok (some keyname)` for success, `.ok none` for the
code's `return None`, `.error` for a propagated exception) with the trace of
remote calls issued. -/
def upload (threads chunksize attempt_limit : Nat) (bucketname : String)
    (env : UploadEnv) (filename : String) (keyname? : Option String) :
    Except String (Option String) × Trace :=
  let keyname := match keyname? with
    | none => basename filename
    | some k => k
  if env.getBucketOk = false then (.error "get_bucket", ⟨0, 0, 0, 0⟩)
  else if env.fsize < 5242880 then
    if env.putOk then (.ok (some keyname), ⟨1, 0, 0, 0⟩)
    else (.error "set_contents_from_filename", ⟨1, 0, 0, 0⟩)
  else
    match env.initiate with
    | none => (.error "initiate_multipart_upload", ⟨0, 1, 0, 0⟩)
    | some mp_id =>
      let fchunks := fileChunker mp_id bucketname filename attempt_limit chunksize env.fsize
      if threads = 1 then
        match seqRun env.chunkEnvs fchunks with
        | .failedPart _ =>
          if env.cancelOk 0 then (.ok none, ⟨0, 1, 0, 1⟩)
          else if env.cancelOk 1 then (.ok none, ⟨0, 1, 0, 2⟩)
          else (.error "cancel_upload", ⟨0, 1, 0, 2⟩)
        | .raised _ =>
          if env.cancelOk 0 then (.ok none, ⟨0, 1, 0, 1⟩)
          else (.error "cancel_upload", ⟨0, 1, 0, 1⟩)
        | .allOk result =>
          let fin := finalize env keyname result
          (fin.1, ⟨0, 1, fin.2.1, fin.2.2⟩)
      else
        if env.poolOk = false then
          if env.cancelOk 0 then (.ok none, ⟨0, 1, 0, 1⟩)
          else (.error "cancel_upload", ⟨0, 1, 0, 1⟩)
        else
          match poolRun env.chunkEnvs fchunks with
          | .error _ =>
            if env.cancelOk 0 then (.ok none, ⟨0, 1, 0, 1⟩)
            else (.error "cancel_upload", ⟨0, 1, 0, 1⟩)
          | .ok result =>
            let fin := finalize env keyname result
            (fin.1, ⟨0, 1, fin.2.1, fin.2.2⟩)

/-- The list of `ChunkOutcome`s collected by `upload` on the multipart path
(the `result` variable once dispatch is over; empty when dispatch raised or
the pool timed out before producing results). -/
def collected (threads : Nat) (env : UploadEnv) (fchunks : List ChunkArgs) :
    List (Nat × Bool) :=
  if threads = 1 then
    match seqRun env.chunkEnvs fchunks with
    | .allOk res => res
    | .failedPart res => res
    | .raised _ => []
  else
    if env.poolOk = false then []
    else
      match poolRun env.chunkEnvs fchunks with
      | .ok res => res
      | .error _ => []

/-- Claim C7: for every file strictly below the 5 MiB multipart floor
(5242880 bytes, including empty files), `upload` issues exactly one
single-shot put and never initiates a multipart session; when the put
succeeds it returns the key name, which defaults to the source file's base
name when none is given. -/
theorem small_file_single_put (threads chunksize attempt_limit : Nat)
    (bucketname filename : String) (keyname? : Option String) (env : UploadEnv)
    (hb : env.getBucketOk = true) (hf : env.fsize < 5242880) :
    (upload threads chunksize attempt_limit bucketname env filename keyname?).2.initiates = 0 ∧
    (upload threads chunksize attempt_limit bucketname env filename keyname?).2.puts = 1 ∧
    (env.putOk = true →
      (upload threads chunksize attempt_limit bucketname env filename keyname?).1 =
        .ok (some (match keyname? with
          | none => basename filename
          | some k => k))) := by
  by_cases hp : env.putOk = true <;>
    simp [upload, hb, hf, hp]

/-- Environment for the C7 witness: an empty file, all calls succeeding. -/
def envSmall : UploadEnv :=
  ⟨0, true, true, some 7, fun _ _ => attemptEnvGood, true, some 0, true, fun _ => true⟩

/-- Witness for C7: a zero-length file named `dir/data.csv` with no explicit
key is single-shot uploaded under the key `data.csv`; no multipart session
is initiated. -/
theorem small_file_single_put_witness :
    (upload 1 5242880 5 "bucket" envSmall "dir/data.csv" none).2.initiates = 0 ∧
    (upload 1 5242880 5 "bucket" envSmall "dir/data.csv" none).2.puts = 1 ∧
    (upload 1 5242880 5 "bucket" envSmall "dir/data.csv" none).1 = .ok (some "data.csv") := by
  have h := small_file_single_put 1 5242880 5 "bucket" "dir/data.csv" none envSmall rfl
    (by decide)
  refine ⟨h.1, h.2.1, ?_⟩
  rw [h.2.2 rfl]
  rfl

lemma finalize_spec (env : UploadEnv) (keyname : String) (result : List (Nat × Bool))
    (hcanc : env.cancelOk 0 = true) :
    (1 ≤ (finalize env keyname result).2.1 →
      result.all (fun r => r.2) = true ∧ env.getAllParts = some result.length) ∧
    ((result.all (fun r => r.2) = false ∨
        (∃ c, env.getAllParts = some c ∧ c ≠ result.length)) →
      1 ≤ (finalize env keyname result).2.2 ∧ (finalize env keyname result).1 = .ok none) := by
  by_cases hall : result.all (fun r => r.2) = false
  · simp [finalize, hall, hcanc]
  · have hall' : result.all (fun r => r.2) = true := by
      revert hall; cases result.all (fun r => r.2) <;> simp
    cases hga : env.getAllParts with
    | none => simp [finalize, hall', hga]
    | some parts =>
      by_cases hp : parts = result.length
      · by_cases hc : env.completeOk = true
        · simp [finalize, hall', hga, hp, hc]
        · simp [finalize, hall', hga, hp, hc, hcanc]
      · simp [finalize, hall', hga, hp, hcanc]

/-- Claim C1, amended: on the multipart path, `upload` issues the commit
(`complete_upload`) only when every collected `ChunkOutcome` reports
`success=true` and `get_all_parts` reports exactly as many parts as there
are collected outcomes; if either condition is found to fail then, provided
the abort calls `upload` issues return normally, it issues `cancel_upload`
and returns the failure value `None` instead of the key name. -/
theorem upload_commit_condition (threads chunksize attempt_limit : Nat)
    (bucketname filename : String) (keyname? : Option String) (env : UploadEnv)
    (mp_id : Nat) (ht : 1 ≤ threads) (hcs : 0 < chunksize) (hf : 5242880 ≤ env.fsize)
    (hb : env.getBucketOk = true) (hinit : env.initiate = some mp_id)
    (hcanc : ∀ k, env.cancelOk k = true) :
    (1 ≤ (upload threads chunksize attempt_limit bucketname env filename keyname?).2.completes →
      (collected threads env
          (fileChunker mp_id bucketname filename attempt_limit chunksize env.fsize)).all
          (fun r => r.2) = true ∧
      env.getAllParts = some (collected threads env
          (fileChunker mp_id bucketname filename attempt_limit chunksize env.fsize)).length) ∧
    (((collected threads env
          (fileChunker mp_id bucketname filename attempt_limit chunksize env.fsize)).all
          (fun r => r.2) = false ∨
        (∃ c, env.getAllParts = some c ∧ c ≠ (collected threads env
          (fileChunker mp_id bucketname filename attempt_limit chunksize env.fsize)).length)) →
      1 ≤ (upload threads chunksize attempt_limit bucketname env filename keyname?).2.cancels ∧
      (upload threads chunksize attempt_limit bucketname env filename keyname?).1 = .ok none) := by
  have hnf : ¬ (env.fsize < 5242880) := by omega
  have hc0 := hcanc 0
  by_cases h1 : threads = 1
  · cases hseq : seqRun env.chunkEnvs
        (fileChunker mp_id bucketname filename attempt_limit chunksize env.fsize) with
    | allOk res =>
      simp only [upload, collected, hb, hnf, hinit, h1, hseq]
      simp only [Bool.true_eq_false, if_false, if_neg hnf, if_pos rfl]
      exact finalize_spec env _ res hc0
    | failedPart res =>
      simp [upload, collected, hb, hnf, hinit, h1, hseq, hc0]
    | raised e =>
      simp [upload, collected, hb, hnf, hinit, h1, hseq, hc0]
  · by_cases hpool : env.poolOk = true
    · cases hrun : poolRun env.chunkEnvs
          (fileChunker mp_id bucketname filename attempt_limit chunksize env.fsize) with
      | ok res =>
        simp only [upload, collected, hb, hnf, hinit, h1, hpool, hrun]
        simp only [Bool.true_eq_false, if_false, if_neg hnf, if_pos rfl]
        exact finalize_spec env _ res hc0
      | error e =>
        simp [upload, collected, hb, hnf, hinit, h1, hpool, hrun, hc0]
    · have hpool' : env.poolOk = false := by
        revert hpool; cases env.poolOk <;> simp
      simp [upload, collected, hb, hnf, hinit, h1, hpool', hc0]

/-- Environment for the C1 witness: a one-chunk file whose only chunk fails
its single allowed attempt (the local read raises); every finalization call
succeeds. -/
def envOneChunkFail : UploadEnv :=
  ⟨5242880, true, true, some 7, fun _ _ => attemptEnvBad, true, some 1, true, fun _ => true⟩

/-- Witness for C1: with a permanently failing chunk the collected outcome
list contains a failure, so `upload` aborts and returns `None`. -/
theorem upload_commit_condition_witness :
    (collected 1 envOneChunkFail (fileChunker 7 "bucket" "file" 1 5242880 5242880)).all
        (fun r => r.2) = false ∧
    1 ≤ (upload 1 5242880 1 "bucket" envOneChunkFail "file" (some "k")).2.cancels ∧
    (upload 1 5242880 1 "bucket" envOneChunkFail "file" (some "k")).1 = .ok none := by
  have h := (upload_commit_condition 1 5242880 1 "bucket" "file" (some "k") envOneChunkFail 7
    (by decide) (by decide) (by decide) rfl rfl (fun _ => rfl)).2 (Or.inl (by decide))
  exact ⟨by decide, h.1, h.2⟩

/-- Environment for the C1 counterexample: as `envOneChunkFail`, but every
`cancel_upload` call raises. -/
def envOneChunkFailCancelRaise : UploadEnv :=
  ⟨5242880, true, true, some 7, fun _ _ => attemptEnvBad, true, some 1, true, fun _ => false⟩

/-- Claim C1, counterexample to the claim as stated: a chunk exhausts its
attempts, so "every collected ChunkOutcome has success=true" fails — yet
`upload` does not return a failure value: the `cancel_upload` it issues
raises (twice on the `threads == 1` path, lines 119 and 123) and the
exception propagates out of `upload`. -/
theorem upload_commit_condition_cex :
    (collected 1 envOneChunkFailCancelRaise (fileChunker 7 "bucket" "file" 1 5242880 5242880)).all
        (fun r => r.2) = false ∧
    (upload 1 5242880 1 "bucket" envOneChunkFailCancelRaise "file" (some "k")).1 =
      .error "cancel_upload" ∧
    (upload 1 5242880 1 "bucket" envOneChunkFailCancelRaise "file" (some "k")).2.cancels = 2 := by
  refine ⟨by decide, rfl, by decide⟩

/-- Environment for the C2 failing input: a one-chunk multipart upload whose
chunk succeeds, but `mp.get_all_parts()` (line 150, outside any `try`)
raises. -/
def envPartsQueryRaise : UploadEnv :=
  ⟨5242880, true, true, some 7, fun _ _ => attemptEnvGood, true, none, true, fun _ => true⟩

/-- Claim C2, divergence witness: when `get_all_parts` raises during
finalization, the exception propagates out of `upload` with the multipart
session neither completed nor cancelled — the session id leaks (the trace
shows one `initiate_multipart_upload`, zero `complete_upload` and zero
`cancel_upload` calls), contradicting the claimed release-on-every-exit-path
guarantee. -/
theorem upload_session_leak :
    upload 1 5242880 1 "bucket" envPartsQueryRaise "file" (some "k") =
      (.error "get_all_parts", ⟨0, 1, 0, 0⟩) :=
  rfl

lemma seqRun_failedPart (cenvs : Nat → Nat → AttemptEnv) :
    ∀ l : List ChunkArgs,
      (∃ c ∈ l, uploadPart c.mp_id c.attempt_limit c.chunk_num (cenvs c.chunk_num) =
        .ok (c.chunk_num, false)) →
      ∃ res, seqRun cenvs l = .failedPart res := by
  intro l
  induction l with
  | nil => intro h; simp at h
  | cons c rest ih =>
    intro h
    obtain ⟨s, hs⟩ := uploadPart_isOk c.mp_id c.attempt_limit c.chunk_num (cenvs c.chunk_num)
    cases hb : s with
    | false =>
      subst hb
      exact ⟨[(c.chunk_num, false)], by simp [seqRun, hs]⟩
    | true =>
      subst hb
      obtain ⟨d, hd, hdf⟩ := h
      have hdrest : d ∈ rest := by
        rcases List.mem_cons.mp hd with hdc | hdr
        · subst hdc
          rw [hs] at hdf
          simp at hdf
        · exact hdr
      obtain ⟨res, hres⟩ := ih ⟨d, hdrest, hdf⟩
      exact ⟨(c.chunk_num, true) :: res, by simp [seqRun, hs, hres]⟩

lemma poolRun_isOk (cenvs : Nat → Nat → AttemptEnv) :
    ∀ l : List ChunkArgs, ∃ res, poolRun cenvs l = .ok res := by
  intro l
  induction l with
  | nil => exact ⟨[], rfl⟩
  | cons c rest ih =>
    obtain ⟨s, hs⟩ := uploadPart_isOk c.mp_id c.attempt_limit c.chunk_num (cenvs c.chunk_num)
    obtain ⟨res, hres⟩ := ih
    exact ⟨(c.chunk_num, s) :: res, by simp [poolRun, hs, hres]⟩

lemma poolRun_all_false (cenvs : Nat → Nat → AttemptEnv) :
    ∀ l : List ChunkArgs,
      (∃ c ∈ l, uploadPart c.mp_id c.attempt_limit c.chunk_num (cenvs c.chunk_num) =
        .ok (c.chunk_num, false)) →
      ∀ res, poolRun cenvs l = .ok res → res.all (fun r => r.2) = false := by
  intro l
  induction l with
  | nil => intro h; simp at h
  | cons c rest ih =>
    intro h res hres
    obtain ⟨s, hs⟩ := uploadPart_isOk c.mp_id c.attempt_limit c.chunk_num (cenvs c.chunk_num)
    obtain ⟨res', hres'⟩ := poolRun_isOk cenvs rest
    have hresEq : res = (c.chunk_num, s) :: res' := by
      simp only [poolRun, hs, hres'] at hres
      exact (Except.ok.inj hres).symm
    subst hresEq
    cases hb : s with
    | false => simp
    | true =>
      subst hb
      obtain ⟨d, hd, hdf⟩ := h
      have hdrest : d ∈ rest := by
        rcases List.mem_cons.mp hd with hdc | hdr
        · subst hdc
          rw [hs] at hdf
          simp at hdf
        · exact hdr
      have := ih ⟨d, hdrest, hdf⟩ res' hres'
      simp [this]

lemma finalize_one (env : UploadEnv) (keyname : String) (result : List (Nat × Bool))
    (hga : env.getAllParts ≠ none) (hcomp : env.completeOk = true)
    (hcanc : env.cancelOk 0 = true) :
    (finalize env keyname result).2.1 + (finalize env keyname result).2.2 = 1 := by
  by_cases hall : result.all (fun r => r.2) = false
  · simp [finalize, hall, hcanc]
  · cases hga' : env.getAllParts with
    | none => exact absurd hga' hga
    | some parts =>
      by_cases hp : parts = result.length
      · simp [finalize, hall, hga', hp, hcomp]
      · simp [finalize, hall, hga', hp, hcanc]

lemma finalize_abort (env : UploadEnv) (keyname : String) (result : List (Nat × Bool))
    (hall : result.all (fun r => r.2) = false) (hcanc : env.cancelOk 0 = true) :
    finalize env keyname result = (.ok none, 0, 1) := by
  simp [finalize, hall, hcanc]

/-- Claim C3, amended: on a multipart session, provided the
finalization-stage remote calls it issues return normally (`get_all_parts`
does not raise, and any issued `complete_upload` or `cancel_upload`
succeeds), `upload` issues exactly one finalization action — one
`complete_upload` or one `cancel_upload`, never both and never neither; in
particular when some chunk exhausts all its attempts, `cancel_upload` is
issued exactly once and `complete_upload` never. -/
theorem upload_exactly_one_finalization (threads chunksize attempt_limit : Nat)
    (bucketname filename : String) (keyname? : Option String) (env : UploadEnv)
    (mp_id : Nat) (ht : 1 ≤ threads) (hcs : 0 < chunksize) (hf : 5242880 ≤ env.fsize)
    (hb : env.getBucketOk = true) (hinit : env.initiate = some mp_id)
    (hga : env.getAllParts ≠ none) (hcomp : env.completeOk = true)
    (hcanc : ∀ k, env.cancelOk k = true) :
    (upload threads chunksize attempt_limit bucketname env filename keyname?).2.completes +
      (upload threads chunksize attempt_limit bucketname env filename keyname?).2.cancels = 1 ∧
    ((∃ c ∈ fileChunker mp_id bucketname filename attempt_limit chunksize env.fsize,
        uploadPart c.mp_id c.attempt_limit c.chunk_num (env.chunkEnvs c.chunk_num) =
          .ok (c.chunk_num, false)) →
      (upload threads chunksize attempt_limit bucketname env filename keyname?).2.completes = 0 ∧
      (upload threads chunksize attempt_limit bucketname env filename keyname?).2.cancels = 1) := by
  have hnf : ¬ (env.fsize < 5242880) := by omega
  have hc0 := hcanc 0
  by_cases h1 : threads = 1
  · cases hseq : seqRun env.chunkEnvs
        (fileChunker mp_id bucketname filename attempt_limit chunksize env.fsize) with
    | allOk res =>
      constructor
      · simp only [upload, hb, hnf, hinit, h1, hseq]
        simp only [Bool.true_eq_false, if_false, if_neg hnf, if_pos rfl]
        exact finalize_one env _ res hga hcomp hc0
      · intro hex
        obtain ⟨res', hres'⟩ := seqRun_failedPart env.chunkEnvs
          (fileChunker mp_id bucketname filename attempt_limit chunksize env.fsize) hex
        rw [hseq] at hres'
        simp at hres'
    | failedPart res =>
      simp [upload, hb, hnf, hinit, h1, hseq, hc0]
    | raised e =>
      constructor
      · simp [upload, hb, hnf, hinit, h1, hseq, hc0]
      · intro hex
        obtain ⟨res', hres'⟩ := seqRun_failedPart env.chunkEnvs
          (fileChunker mp_id bucketname filename attempt_limit chunksize env.fsize) hex
        rw [hseq] at hres'
        simp at hres'
  · by_cases hpool : env.poolOk = true
    · cases hrun : poolRun env.chunkEnvs
          (fileChunker mp_id bucketname filename attempt_limit chunksize env.fsize) with
      | ok res =>
        constructor
        · simp only [upload, hb, hnf, hinit, h1, hpool, hrun]
          simp only [Bool.true_eq_false, if_false, if_neg hnf, if_pos rfl]
          exact finalize_one env _ res hga hcomp hc0
        · intro hex
          have hall := poolRun_all_false env.chunkEnvs
            (fileChunker mp_id bucketname filename attempt_limit chunksize env.fsize) hex
            res hrun
          simp only [upload, hb, hnf, hinit, h1, hpool, hrun]
          simp only [Bool.true_eq_false, if_false, if_neg hnf, if_pos rfl]
          constructor
          · exact congrArg (fun p => p.2.1) (finalize_abort env _ res hall hc0)
          · exact congrArg (fun p => p.2.2) (finalize_abort env _ res hall hc0)
      | error e =>
        obtain ⟨res, hres⟩ := poolRun_isOk env.chunkEnvs
          (fileChunker mp_id bucketname filename attempt_limit chunksize env.fsize)
        rw [hrun] at hres
        simp at hres
    · have hpool' : env.poolOk = false := by
        revert hpool; cases env.poolOk <;> simp
      simp [upload, hb, hnf, hinit, h1, hpool', hc0]

/-- Witness for C3: the one-chunk upload whose chunk permanently fails
issues exactly one `cancel_upload` and no `complete_upload`. -/
theorem upload_exactly_one_finalization_witness :
    (upload 1 5242880 1 "bucket" envOneChunkFail "file" (some "k")).2.completes = 0 ∧
    (upload 1 5242880 1 "bucket" envOneChunkFail "file" (some "k")).2.cancels = 1 :=
  (upload_exactly_one_finalization 1 5242880 1 "bucket" "file" (some "k") envOneChunkFail 7
    (by decide) (by decide) (by decide) rfl rfl (by decide) rfl (fun _ => rfl)).2
    ⟨⟨7, "bucket", "file", 1, 1, 0, 5242880⟩, by decide, rfl⟩

/-- Environment for the C3 counterexample: the single chunk succeeds and the
part count matches, but `complete_upload` raises; the following
`cancel_upload` (line 155) succeeds. -/
def envCompleteRaise : UploadEnv :=
  ⟨5242880, true, true, some 7, fun _ _ => attemptEnvGood, true, some 1, false, fun _ => true⟩

/-- Claim C3, counterexample to the claim as stated: when `complete_upload`
itself raises, `upload` issues `cancel_upload` as well (lines 152-155), so
both finalization actions are issued to the remote store in a single call —
"never both" fails. -/
theorem upload_exactly_one_finalization_cex :
    (upload 1 5242880 1 "bucket" envCompleteRaise "file" (some "k")).2.completes = 1 ∧
    (upload 1 5242880 1 "bucket" envCompleteRaise "file" (some "k")).2.cancels = 1 ∧
    (upload 1 5242880 1 "bucket" envCompleteRaise "file" (some "k")).1 = .ok none :=
  ⟨by decide, by decide, rfl⟩

end Botowraps
